import Mathlib

/-!
Verification development for the `ai-coach` intake-wizard application
(`app.py`).  The Python source is shallowly embedded: pure computations
become Lean functions, Streamlit session mutation becomes explicit state
passing, and the fallible external collaborators (the CSV lead store and
the SMTP transport) become explicit `Except`-valued oracles passed in as
parameters.  Machine floats only occur in the source where the values are
exactly representable (score means are multiples of 1/8, page coordinates
are integers, the radar chart uses real trigonometry), so means are
embedded as exact decimal rounding on naturals and chart geometry over `ℝ`.
-/

set_option autoImplicit false

namespace AICoach

/-- The 8 fixed question keys of the Compass catalog (`QUESTIONS` in `app.py`). -/
inductive QKey where
  | vision | market | product | sales | ops | finance | team | brand
deriving DecidableEq, Fintype, Repr

/-- The CSV column name of a question key (the first component of each
`QUESTIONS` pair in `app.py`). -/
def QKey.name : QKey → String
  | .vision => "vision"
  | .market => "market"
  | .product => "product"
  | .sales => "sales"
  | .ops => "ops"
  | .finance => "finance"
  | .team => "team"
  | .brand => "brand"

/-- `QUESTIONS` from `app.py`: the fixed ordered catalog of
(key, label) pairs. -/
def QUESTIONS : List (QKey × String) :=
  [ (.vision, "Clarity of vision & goals"),
    (.market, "Market understanding & positioning"),
    (.product, "Product/Service readiness"),
    (.sales, "Sales & lead generation"),
    (.ops, "Operations & delivery"),
    (.finance, "Financial tracking & pricing"),
    (.team, "Team & hiring"),
    (.brand, "Brand & online presence") ]

/-- One survey answer: `{"score": int, "note": str}` in `app.py`. -/
structure Answer where
  score : Nat
  note : String
deriving DecidableEq, Repr

/-- A completed answer mapping: one `Answer` per catalog key.  `app.py`
stores `st.session_state.answers` as a dict which, once the survey form is
submitted, contains exactly one entry per `QUESTIONS` key (in catalog
order), so a total function on `QKey` is the faithful completed shape. -/
def Answers := QKey → Answer

/-- The list of scores in catalog order, as iterated by
`np.mean([v["score"] for v in scores.values()])` (dict insertion order is
`QUESTIONS` order). -/
def scoreList (scores : Answers) : List Nat :=
  QUESTIONS.map (fun p => (scores p.1).score)

/-- Sum of all 8 scores. -/
def sumScores (scores : Answers) : Nat :=
  (scoreList scores).sum

/-- Python's `f"{avg:.1f}"` for `avg = sum/8`.  Since `sum ≤ 40 < 2^53` and
8 is a power of two, the float `avg` is exact, and formatting rounds the
exact rational `sum/8` to one decimal with round-half-to-even.  In tenths:
`sum/8 * 10 = sum*5/4`; the fractional part of `sum*5` over 4 is
0, .25, .5 or .75, so: remainder 0 or 1 rounds down, 3 rounds up, and 2
(the exact half) rounds to the even tenth. -/
def formatAvg (sum : Nat) : String :=
  let t5 := sum * 5
  let q := t5 / 4
  let tenths :=
    if t5 % 4 = 2 then (if q % 2 = 0 then q else q + 1)
    else if t5 % 4 = 3 then q + 1
    else q
  Nat.repr (tenths / 10) ++ "." ++ Nat.repr (tenths % 10)

/-- `low_areas` from `interpret` in `app.py`: labels whose score is `≤ 2`,
in catalog order. -/
def low_areas (scores : Answers) : List String :=
  (QUESTIONS.filter (fun p => (scores p.1).score ≤ 2)).map Prod.snd

/-- `high_areas` from `interpret` in `app.py`: labels whose score is `≥ 4`,
in catalog order. -/
def high_areas (scores : Answers) : List String :=
  (QUESTIONS.filter (fun p => 4 ≤ (scores p.1).score)).map Prod.snd

/-- Python's `", ".join(l)`. -/
def commaJoin : List String → String
  | [] => ""
  | [l] => l
  | l :: ls => l ++ ", " ++ commaJoin ls

/-- Python's `" ".join(l)`. -/
def spaceJoin : List String → String
  | [] => ""
  | [l] => l
  | l :: ls => l ++ " " ++ spaceJoin ls

/-- The `lines` list accumulated inside `interpret` in `app.py`, in the
order the Python code appends them (each `if` guard transcribed). -/
def interpretLines (scores : Answers) : List String :=
  let low := low_areas scores
  let high := high_areas scores
  [ "Your overall readiness score is " ++ formatAvg (sumScores scores) ++ "/5." ]
  ++ (if high ≠ [] then ["Strengths: " ++ commaJoin high ++ "."] else [])
  ++ (if low ≠ [] then ["Focus areas: " ++ commaJoin low ++ "."] else [])
  ++ [ "Recommended next steps:" ]
  ++ (if "Sales & lead generation" ∈ low then
        ["- Implement a lead pipeline with clear weekly targets and tracking."] else [])
  ++ (if "Financial tracking & pricing" ∈ low then
        ["- Set up monthly P&L tracking and review unit economics."] else [])
  ++ (if "Brand & online presence" ∈ low then
        ["- Refresh website messaging and create a content calendar."] else [])
  ++ (if low = [] then
        ["- You’re in great shape. Consider accelerating growth initiatives."] else [])

/-- `interpret` from `app.py`: the rule-based summary, the `lines` joined
by single spaces. -/
def interpret (scores : Answers) : String :=
  spaceJoin (interpretLines scores)

/-- Is `pat` a prefix of `s` (character lists)? -/
def isPrefixCh : List Char → List Char → Bool
  | [], _ => true
  | _ :: _, [] => false
  | a :: pat, b :: s => a == b && isPrefixCh pat s

/-- Does `s` contain `pat` as a contiguous substring (character lists)? -/
def containsCh (pat : List Char) : List Char → Bool
  | [] => isPrefixCh pat []
  | b :: s => isPrefixCh pat (b :: s) || containsCh pat s

/-- Substring containment on strings. -/
def strContains (s pat : String) : Bool :=
  containsCh pat.data s.data

/-- Suffix test on strings. -/
def strEndsWith (s pat : String) : Bool :=
  isPrefixCh pat.data.reverse s.data.reverse

/-! ## Session stage machine (`st.session_state` and the `ui_*` handlers)

Streamlit's mutable `st.session_state` becomes an explicit record; each
form-submit handler becomes a function from the current record (plus the
submitted form fields and the ambient clock values) to the next record.
The CSV lead store is the external collaborator: it is passed in as a
`write` oracle mapping a row to `Except String Unit`, where `.error e`
models `pd.read_csv`/`to_csv` raising exception `e`.  A handler returning
`Except.error e` models the Python exception propagating out of the
handler (aborting the Streamlit script run). -/

/-- A row appended to the mock CRM CSV: field name / stringified value
pairs, in the order `app.py` builds the dict. -/
def Row := List (String × String)

/-- The wizard session record (`init_state` defaults in `app.py`;
`answers` is `none` while the dict is empty and `some` once the single
survey submission fills it). -/
structure SessionState where
  stage : String
  user_email : String
  user_name : String
  user_phone : String
  referral : List (String × String)
  answers : Option Answers
  paid : Bool
  lead_id : String

/-- `upsert_lead` from `app.py`: builds the one-row frame and appends it to
the CSV.  The file I/O is the `write` oracle; note the Python function
wraps it in no `try`/`except`, so the oracle's outcome is returned as-is. -/
def upsert_lead (write : Row → Except String Unit) (row : Row) : Except String Unit :=
  write row

/-- Python `str(b)` on a bool, as pandas stringifies the `paid` flag. -/
def pyBool (b : Bool) : String := if b then "True" else "False"

/-- The `if submit:` body of `ui_auth` in `app.py`.  Inputs: the submitted
form fields, `now` (`int(time.time())`), `nowIso`
(`datetime.utcnow().isoformat()`).  Returns the next session record plus
the surfaced `st.error` message if any; `Except.error` when the lead-store
write raises. -/
def ui_auth_submit (write : Row → Except String Unit) (now : Nat) (nowIso : String)
    (s : SessionState) (email name phone password : String) :
    Except String (SessionState × Option String) :=
  if email = "" ∨ name = "" ∨ password = "" then
    Except.ok (s, some "Please fill email, name, and password.")
  else
    let lead := "lead_" ++ Nat.repr now
    let row : Row :=
      [("lead_id", lead), ("name", name), ("email", email), ("phone", phone),
       ("paid", pyBool s.paid), ("created_utc", nowIso)] ++ s.referral
    match upsert_lead write row with
    | Except.ok _ =>
        Except.ok ({ s with user_email := email, user_name := name,
                            user_phone := phone, lead_id := lead,
                            stage := "survey" }, none)
    | Except.error e => Except.error e

/-- The `if submit:` body of `ui_survey` in `app.py`: stores the completed
responses, appends the scores-only row, and advances to `report`. -/
def ui_survey_submit (write : Row → Except String Unit) (nowIso : String)
    (s : SessionState) (responses : Answers) : Except String SessionState :=
  let row : Row :=
    [("lead_id", s.lead_id), ("updated_utc", nowIso)] ++
    QUESTIONS.map (fun p => ("score_" ++ p.1.name, Nat.repr (responses p.1).score))
  match upsert_lead write row with
  | Except.ok _ =>
      Except.ok { s with answers := some responses, stage := "report" }
  | Except.error e => Except.error e

/-- The `if st.button("Finish"):` body of `ui_report` in `app.py`: appends
the completion row and advances to `done`. -/
def ui_finish (write : Row → Except String Unit) (nowIso : String)
    (s : SessionState) (sent : Bool) : Except String SessionState :=
  let row : Row :=
    [("lead_id", s.lead_id), ("report_ready", "True"), ("emailed", pyBool sent),
     ("completed_utc", nowIso)]
  match upsert_lead write row with
  | Except.ok _ => Except.ok { s with stage := "done" }
  | Except.error e => Except.error e

/-- A lead-store write oracle that always succeeds. -/
def okWrite : Row → Except String Unit := fun _ => Except.ok ()

/-! ## Email adapter (`email_report` in `app.py`)

The SMTP transport (the whole `with smtplib.SMTP(...)` block) is the
`transport` oracle; `.error e` models it raising exception `e`, caught by
the `except` clause.  The configuration check mirrors Python string
truthiness: `not (SMTP_HOST and SMTP_USER and SMTP_PASS)` is true exactly
when one of them is empty. -/

/-- `email_report` from `app.py`. -/
def email_report (smtpHost smtpUser smtpPass : String)
    (transport : Except String Unit) (to_email : String) : Bool × String :=
  if smtpHost = "" ∨ smtpUser = "" ∨ smtpPass = "" then
    (false, "Email not configured in demo.")
  else
    match transport with
    | Except.ok _ => (true, "Email sent.")
    | Except.error e => (false, "Email failed: " ++ e)

/-! ## Character-level text processing

Python strings are embedded as `List Char` where induction is needed
(`String` is definitionally a wrapper around `List Char`; `String.length`
counts characters exactly as Python `len`). -/

/-- Python's whitespace set for `str.split()` with no arguments. -/
def pyIsSpace (c : Char) : Bool :=
  c == ' ' || c == '\t' || c == '\n' || c == '\r' || c == '\x0b' || c == '\x0c'

/-- Worker for `str.split()`: `cur` is the reversed current word. -/
def pyWordsAux : List Char → List Char → List (List Char)
  | [], cur => if cur ≠ [] then [cur.reverse] else []
  | c :: cs, cur =>
    if pyIsSpace c then
      (if cur ≠ [] then cur.reverse :: pyWordsAux cs [] else pyWordsAux cs [])
    else pyWordsAux cs (c :: cur)

/-- Python's `insights.split()`: maximal whitespace-free runs, empties
dropped. -/
def pyWords (s : List Char) : List (List Char) :=
  pyWordsAux s []

/-- The word-wrap loop of `make_report_pdf` in `app.py`:

    wrap = []; line = ""
    for word in insights.split():
        if len(line) + len(word) + 1 < 90:
            line += (" " if line else "") + word
        else:
            wrap.append(line); line = word
    if line: wrap.append(line)
-/
def wrapLoop : List (List Char) → List (List Char) → List Char → List (List Char)
  | [], acc, line => if line ≠ [] then acc ++ [line] else acc
  | w :: ws, acc, line =>
    if line.length + w.length + 1 < 90 then
      wrapLoop ws acc (line ++ (if line = [] then [] else [' ']) ++ w)
    else
      wrapLoop ws (acc ++ [line]) w

/-- The `wrap` list computed by `make_report_pdf` for a given insights
text. -/
def pyWrap (insights : List Char) : List (List Char) :=
  wrapLoop (pyWords insights) [] []

/-- Single-space intercalation of a list of words (character level). -/
def spaceJoinCh : List (List Char) → List Char
  | [] => []
  | [w] => w
  | w :: ws => w ++ ' ' :: spaceJoinCh ws

/-- Modelled from the spec: the word-boundary decomposition of the wrap.
Runs the same greedy loop as `wrapLoop` but accumulates, for each output
line, the chunk of consecutive input words that composes it.  Used only to
state that the wrap breaks text at word boundaries. -/
def chunkLoop : List (List Char) → List (List (List Char)) → List (List Char) →
    List (List (List Char))
  | [], acc, cur => if cur ≠ [] then acc ++ [cur] else acc
  | w :: ws, acc, cur =>
    if (spaceJoinCh cur).length + w.length + 1 < 90 then
      chunkLoop ws acc (cur ++ [w])
    else
      chunkLoop ws (acc ++ [cur]) [w]

/-- The chunk decomposition of the wrap of a word list. -/
def wrapChunks (ws : List (List Char)) : List (List (List Char)) :=
  chunkLoop ws [] []

/-- Length of the longest whitespace-free run: worker.  `cur` is the length
of the run in progress, `m` the maximum seen so far. -/
def maxRunAux : List Char → Nat → Nat → Nat
  | [], cur, m => max cur m
  | c :: cs, cur, m =>
    if pyIsSpace c then maxRunAux cs 0 (max cur m) else maxRunAux cs (cur + 1) m

/-- Length of the longest whitespace-free run of a character list (equals
the length of its longest `pyWords` word). -/
def maxRun (s : List Char) : Nat :=
  maxRunAux s 0 0

/-! ## PDF report renderer (`make_report_pdf` in `app.py`)

The reportlab canvas is embedded as the trace of drawing operations, in
the order the Python code issues them.  Page-1 vertical positions are
exact integers (all decrements from `h = 792` are integral), so the `y`
cursor is tracked in `ℤ`; the radar-chart geometry uses real
trigonometry.  Byte-level PDF serialization is injective in this trace,
so trace equality embeds byte equality of the produced PDF. -/

/-- A reportlab canvas drawing operation. -/
inductive PdfOp where
  | setFont (font : String) (size : Nat)
  | drawString (x y : ℝ) (text : String)
  | line (x1 y1 x2 y2 : ℝ)
  | showPage

/-- `APP_NAME` from `app.py`. -/
def APP_NAME : String := "AI Coach – Business Diagnostic"

/-- `letter` page height (792 pt), as an integer for the page-1 cursor. -/
def letterHI : ℤ := 792

/-- `letter` page width and height from reportlab, exact floats. -/
def letterW : ℝ := 612

/-- Page height as a real coordinate. -/
def letterH : ℝ := 792

/-- The scores-table loop of `make_report_pdf`: one line per catalog entry,
descending 14 points per line; returns the ops and the final `y`. -/
def scoreTable : List (QKey × String) → Answers → ℤ → List PdfOp × ℤ
  | [], _, y => ([], y)
  | p :: ps, scores, y =>
    let rest := scoreTable ps scores (y - 14)
    (PdfOp.drawString 80 (y : ℝ) ("- " ++ p.2 ++ ": " ++ Nat.repr (scores p.1).score)
       :: rest.1, rest.2)

/-- The wrapped-insights drawing loop of `make_report_pdf`: draw each line,
descend 13 points, and start a new page when the cursor passes the bottom
margin (`y < 72`). -/
def wrapDraw : List (List Char) → ℤ → List PdfOp
  | [], _ => []
  | l :: ls, y =>
    PdfOp.drawString 80 (y : ℝ) (String.mk l) ::
    (if y - 13 < 72 then PdfOp.showPage :: wrapDraw ls (letterHI - 72)
     else wrapDraw ls (y - 13))

/-- Catalog entry at chart index `i`. -/
def qAt (i : Fin 8) : QKey × String :=
  QUESTIONS.get (Fin.cast (by rfl) i)

/-- Radar chart center x (`cx` in `app.py`). -/
def chartCx : ℝ := 300

/-- Radar chart center y (`cy` in `app.py`). -/
def chartCy : ℝ := 400

/-- Radar chart radius (`R` in `app.py`). -/
def chartR : ℝ := 150

/-- The spoke angle for chart index `i`:
`(2 * math.pi) * (i / len(QUESTIONS)) - math.pi / 2`. -/
noncomputable def chartAngle (i : Fin 8) : ℝ :=
  2 * Real.pi * (((i : ℕ) : ℝ) / 8) - Real.pi / 2

/-- Spoke tip x coordinate for index `i`. -/
noncomputable def spokeX (i : Fin 8) : ℝ :=
  chartCx + chartR * Real.cos (chartAngle i)

/-- Spoke tip y coordinate for index `i`. -/
noncomputable def spokeY (i : Fin 8) : ℝ :=
  chartCy + chartR * Real.sin (chartAngle i)

/-- Polygon radius for index `i`: `(s / 5.0) * R`. -/
noncomputable def ptRad (scores : Answers) (i : Fin 8) : ℝ :=
  (((scores (qAt i).1).score : ℝ) / 5) * chartR

/-- Polygon vertex x coordinate for index `i`. -/
noncomputable def ptX (scores : Answers) (i : Fin 8) : ℝ :=
  chartCx + ptRad scores i * Real.cos (chartAngle i)

/-- Polygon vertex y coordinate for index `i`. -/
noncomputable def ptY (scores : Answers) (i : Fin 8) : ℝ :=
  chartCy + ptRad scores i * Real.sin (chartAngle i)

/-- The spoke and spoke-label ops, in draw order. -/
noncomputable def spokeOps : List PdfOp :=
  (List.finRange 8).flatMap (fun i =>
    [PdfOp.line chartCx chartCy (spokeX i) (spokeY i),
     PdfOp.drawString (spokeX i + 4) (spokeY i + 4) ((qAt i).2.take 16)])

/-- The closed score-polygon ops: edge `i` joins vertex `i` to vertex
`(i + 1) % 8` (`Fin 8` addition is the modulus in the Python code). -/
noncomputable def polyOps (scores : Answers) : List PdfOp :=
  (List.finRange 8).flatMap (fun i =>
    [PdfOp.line (ptX scores i) (ptY scores i) (ptX scores (i + 1)) (ptY scores (i + 1))])

/-- The radar-chart page ops of `make_report_pdf`. -/
noncomputable def chartOps (scores : Answers) : List PdfOp :=
  [PdfOp.setFont "Helvetica-Bold" 14,
   PdfOp.drawString 72 (letterH - 72) "Compass Chart",
   PdfOp.setFont "Helvetica" 9]
  ++ spokeOps ++ polyOps scores

/-- `make_report_pdf` from `app.py` as its canvas-operation trace.
`nowStr` is the formatted clock value
(`datetime.utcnow().strftime('%Y-%m-%d %H:%M UTC')`), made an explicit
parameter (the injected clock). -/
noncomputable def make_report_pdf (user_name email : String) (scores : Answers)
    (insights : String) (nowStr : String) : List PdfOp :=
  let st := scoreTable QUESTIONS scores (letterHI - 160 - 18)
  let y2 := st.2 - 10
  [PdfOp.setFont "Helvetica-Bold" 16,
   PdfOp.drawString 72 (letterH - 72) (APP_NAME ++ " – Compass Report"),
   PdfOp.setFont "Helvetica" 11,
   PdfOp.drawString 72 (letterH - 96) ("Name: " ++ user_name),
   PdfOp.drawString 72 (letterH - 112) ("Email: " ++ email),
   PdfOp.drawString 72 (letterH - 128) ("Date: " ++ nowStr),
   PdfOp.setFont "Helvetica-Bold" 12,
   PdfOp.drawString 72 ((letterHI - 160 : ℤ) : ℝ) "Compass Scores (1–5)",
   PdfOp.setFont "Helvetica" 10]
  ++ st.1
  ++ [PdfOp.setFont "Helvetica-Bold" 12,
      PdfOp.drawString 72 ((y2 : ℤ) : ℝ) "Milestones & Interpretation",
      PdfOp.setFont "Helvetica" 10]
  ++ wrapDraw (pyWrap insights.data) (y2 - 16)
  ++ [PdfOp.showPage]
  ++ chartOps scores
  ++ [PdfOp.showPage]

/-! ## Concrete instances used by the claims -/

/-- The label of a catalog key (second component of its `QUESTIONS` entry). -/
def qLabel : QKey → String
  | .vision => "Clarity of vision & goals"
  | .market => "Market understanding & positioning"
  | .product => "Product/Service readiness"
  | .sales => "Sales & lead generation"
  | .ops => "Operations & delivery"
  | .finance => "Financial tracking & pricing"
  | .team => "Team & hiring"
  | .brand => "Brand & online presence"

/-- The §8 scenario score assignment: vision 5, market 5, product 1,
sales 1, ops 3, finance 3, team 4, brand 2. -/
def scenarioScores : Answers := fun k =>
  match k with
  | .vision => ⟨5, ""⟩
  | .market => ⟨5, ""⟩
  | .product => ⟨1, ""⟩
  | .sales => ⟨1, ""⟩
  | .ops => ⟨3, ""⟩
  | .finance => ⟨3, ""⟩
  | .team => ⟨4, ""⟩
  | .brand => ⟨2, ""⟩

/-- The all-threes answer mapping (every slider left at its default). -/
def allThrees : Answers := fun _ => ⟨3, ""⟩

/-- A session sitting at the `auth` stage, right after the simulated
payment. -/
def demoAuthState : SessionState :=
  ⟨"auth", "", "", "", [], none, true, ""⟩

/-! ## Helper lemmas -/

/-- `interpret` reads only the `score` field of each answer, so two answer
mappings with equal scores yield equal summaries. -/
theorem interpret_congr (a b : Answers) (h : ∀ k, (a k).score = (b k).score) :
    interpret a = interpret b := by
  have hsum : sumScores a = sumScores b := by
    simp [sumScores, scoreList, QUESTIONS, h]
  have hlow : low_areas a = low_areas b := by
    simp [low_areas, QUESTIONS, h]
  have hhigh : high_areas a = high_areas b := by
    simp [high_areas, QUESTIONS, h]
  unfold interpret interpretLines
  rw [hsum, hlow, hhigh]

/-- The label of key `k` is in the low list exactly when `k` scores at
most 2 (the 8 labels are pairwise distinct). -/
theorem qLabel_mem_low (scores : Answers) (k : QKey) :
    qLabel k ∈ low_areas scores ↔ (scores k).score ≤ 2 := by
  cases k <;> simp [qLabel, low_areas, QUESTIONS, List.mem_filter, List.mem_map]

/-- The label of key `k` is in the high list exactly when `k` scores at
least 4. -/
theorem qLabel_mem_high (scores : Answers) (k : QKey) :
    qLabel k ∈ high_areas scores ↔ 4 ≤ (scores k).score := by
  cases k <;> simp [qLabel, high_areas, QUESTIONS, List.mem_filter, List.mem_map]

/-- Radar-chart ops are part of the full render trace. -/
theorem mem_make_report_of_mem_chartOps (user_name email : String) (scores : Answers)
    (insights nowStr : String) (op : PdfOp) (h : op ∈ chartOps scores) :
    op ∈ make_report_pdf user_name email scores insights nowStr := by
  unfold make_report_pdf
  simp only [List.mem_append, List.mem_cons]
  tauto

/-- The spoke for index `i` is drawn. -/
theorem spoke_line_mem (i : Fin 8) :
    PdfOp.line chartCx chartCy (spokeX i) (spokeY i) ∈ spokeOps := by
  unfold spokeOps
  refine List.mem_flatMap.mpr ⟨i, List.mem_finRange i, ?_⟩
  simp

/-- The polygon edge from vertex `i` to vertex `(i+1) % 8` is drawn. -/
theorem poly_line_mem (scores : Answers) (i : Fin 8) :
    PdfOp.line (ptX scores i) (ptY scores i) (ptX scores (i + 1)) (ptY scores (i + 1))
      ∈ polyOps scores := by
  unfold polyOps
  refine List.mem_flatMap.mpr ⟨i, List.mem_finRange i, ?_⟩
  simp

/-- The polygon vertex of index `i` sits at Euclidean distance
`(score/5) · R` from the chart center. -/
theorem pt_dist (scores : Answers) (i : Fin 8) :
    Real.sqrt ((ptX scores i - chartCx) ^ 2 + (ptY scores i - chartCy) ^ 2)
      = (((scores (qAt i).1).score : ℝ) / 5) * chartR := by
  have hrad : 0 ≤ ptRad scores i := by
    unfold ptRad chartR
    positivity
  have hx : ptX scores i - chartCx = ptRad scores i * Real.cos (chartAngle i) := by
    unfold ptX; ring
  have hy : ptY scores i - chartCy = ptRad scores i * Real.sin (chartAngle i) := by
    unfold ptY; ring
  rw [hx, hy,
    show (ptRad scores i * Real.cos (chartAngle i)) ^ 2
        + (ptRad scores i * Real.sin (chartAngle i)) ^ 2
      = ptRad scores i ^ 2 * (Real.cos (chartAngle i) ^ 2 + Real.sin (chartAngle i) ^ 2)
      from by ring,
    Real.cos_sq_add_sin_sq, mul_one, Real.sqrt_sq hrad]
  rfl

/-! ## Character-level lemmas for the word wrap (claim C6) -/

theorem data_append (a b : String) : (a ++ b).data = a.data ++ b.data := by
  cases a; cases b; rfl

theorem pyWordsAux_nil (cur : List Char) :
    pyWordsAux [] cur = if cur ≠ [] then [cur.reverse] else [] := rfl

theorem pyWordsAux_cons (c : Char) (cs cur : List Char) :
    pyWordsAux (c :: cs) cur =
      if pyIsSpace c then
        (if cur ≠ [] then cur.reverse :: pyWordsAux cs [] else pyWordsAux cs [])
      else pyWordsAux cs (c :: cur) := rfl

theorem maxRunAux_nil (c m : Nat) : maxRunAux [] c m = max c m := rfl

theorem maxRunAux_cons (x : Char) (xs : List Char) (c m : Nat) :
    maxRunAux (x :: xs) c m =
      if pyIsSpace x then maxRunAux xs 0 (max c m) else maxRunAux xs (c + 1) m := rfl

theorem pyWordsAux_ne_nil (s : List Char) : ∀ (cur w : List Char),
    w ∈ pyWordsAux s cur → w ≠ [] := by
  induction s with
  | nil =>
    intro cur w hw
    rw [pyWordsAux_nil] at hw
    split at hw
    · next hcur =>
      simp only [List.mem_singleton] at hw
      subst hw
      simpa using hcur
    · simp at hw
  | cons c cs ih =>
    intro cur w hw
    rw [pyWordsAux_cons] at hw
    split at hw
    · split at hw
      · next hcur =>
        rcases List.mem_cons.mp hw with rfl | hw
        · simpa using hcur
        · exact ih [] w hw
      · exact ih [] w hw
    · exact ih (c :: cur) w hw

theorem pyWordsAux_append_space (a : List Char) : ∀ (b cur : List Char),
    pyWordsAux (a ++ ' ' :: b) cur = pyWordsAux a cur ++ pyWordsAux b [] := by
  induction a with
  | nil =>
    intro b cur
    show pyWordsAux (' ' :: b) cur = _
    rw [pyWordsAux_cons, pyWordsAux_nil, show pyIsSpace ' ' = true from rfl]
    simp only [if_true]
    split
    · simp
    · simp
  | cons c cs ih =>
    intro b cur
    show pyWordsAux (c :: (cs ++ ' ' :: b)) cur = _
    rw [pyWordsAux_cons, pyWordsAux_cons]
    by_cases hc : pyIsSpace c
    · simp only [hc, if_true]
      split
      · simp [ih]
      · simp [ih]
    · simp only [hc, Bool.false_eq_true, if_false]
      exact ih b (c :: cur)

theorem le_maxRunAux (s : List Char) : ∀ (c m : Nat), max c m ≤ maxRunAux s c m := by
  induction s with
  | nil => intro c m; rw [maxRunAux_nil]
  | cons x xs ih =>
    intro c m
    rw [maxRunAux_cons]
    split
    · calc max c m ≤ max 0 (max c m) := by omega
        _ ≤ maxRunAux xs 0 (max c m) := ih 0 (max c m)
    · calc max c m ≤ max (c + 1) m := by omega
        _ ≤ maxRunAux xs (c + 1) m := ih (c + 1) m

theorem length_le_maxRunAux (s : List Char) : ∀ (cur : List Char) (m : Nat)
    (w : List Char), w ∈ pyWordsAux s cur → w.length ≤ maxRunAux s cur.length m := by
  induction s with
  | nil =>
    intro cur m w hw
    rw [pyWordsAux_nil] at hw
    rw [maxRunAux_nil]
    split at hw
    · simp only [List.mem_singleton] at hw
      subst hw
      simp only [List.length_reverse]
      omega
    · simp at hw
  | cons c cs ih =>
    intro cur m w hw
    rw [pyWordsAux_cons] at hw
    rw [maxRunAux_cons]
    split at hw
    · next hc =>
      rw [if_pos hc]
      split at hw
      · rcases List.mem_cons.mp hw with rfl | hw
        · calc cur.reverse.length = cur.length := by simp
            _ ≤ max 0 (max cur.length m) := by omega
            _ ≤ maxRunAux cs 0 (max cur.length m) := le_maxRunAux cs 0 (max cur.length m)
        · have := ih [] (max cur.length m) w hw
          simpa using this
      · have := ih [] (max cur.length m) w hw
        simpa using this
    · next hc =>
      rw [if_neg hc]
      have := ih (c :: cur) m w hw
      simpa using this

theorem maxRunAux_eq_max (s : List Char) : ∀ (c m : Nat),
    maxRunAux s c m = max m (maxRunAux s c 0) := by
  induction s with
  | nil => intro c m; rw [maxRunAux_nil, maxRunAux_nil]; omega
  | cons x xs ih =>
    intro c m
    rw [maxRunAux_cons, maxRunAux_cons]
    split
    · rw [ih 0 (max c m), ih 0 (max c 0)]
      omega
    · exact ih (c + 1) m

theorem maxRunAux_append_space (a : List Char) : ∀ (b : List Char) (c m : Nat),
    maxRunAux (a ++ ' ' :: b) c m = maxRunAux b 0 (maxRunAux a c m) := by
  induction a with
  | nil =>
    intro b c m
    show maxRunAux (' ' :: b) c m = _
    rw [maxRunAux_cons, maxRunAux_nil, show pyIsSpace ' ' = true from rfl]
    simp
  | cons x xs ih =>
    intro b c m
    show maxRunAux (x :: (xs ++ ' ' :: b)) c m = _
    rw [maxRunAux_cons, maxRunAux_cons]
    split
    · exact ih b 0 (max c m)
    · exact ih b (c + 1) m

theorem maxRun_append_space (a b : List Char) :
    maxRun (a ++ ' ' :: b) = max (maxRun a) (maxRun b) := by
  unfold maxRun
  rw [maxRunAux_append_space]
  exact maxRunAux_eq_max b 0 (maxRunAux a 0 0)

theorem maxRunAux_le_length (s : List Char) : ∀ (c m : Nat),
    maxRunAux s c m ≤ max m (c + s.length) := by
  induction s with
  | nil => intro c m; rw [maxRunAux_nil]; omega
  | cons x xs ih =>
    intro c m
    rw [maxRunAux_cons]
    split
    · calc maxRunAux xs 0 (max c m) ≤ max (max c m) (0 + xs.length) := ih 0 (max c m)
        _ ≤ max m (c + (x :: xs).length) := by simp only [List.length_cons]; omega
    · calc maxRunAux xs (c + 1) m ≤ max m (c + 1 + xs.length) := ih (c + 1) m
        _ ≤ max m (c + (x :: xs).length) := by simp only [List.length_cons]; omega

theorem maxRun_le_length (s : List Char) : maxRun s ≤ s.length := by
  have := maxRunAux_le_length s 0 0
  unfold maxRun
  omega

theorem maxRunAux_snoc_le (s : List Char) : ∀ (ch : Char) (c m : Nat),
    maxRunAux (s ++ [ch]) c m ≤ maxRunAux s c m + 1 := by
  induction s with
  | nil =>
    intro ch c m
    show maxRunAux [ch] c m ≤ _
    rw [maxRunAux_cons, maxRunAux_nil, maxRunAux_nil]
    split
    · rw [maxRunAux_nil]; omega
    · rw [maxRunAux_nil]; omega
  | cons x xs ih =>
    intro ch c m
    show maxRunAux (x :: (xs ++ [ch])) c m ≤ _
    rw [maxRunAux_cons, maxRunAux_cons]
    split
    · exact ih ch 0 (max c m)
    · exact ih ch (c + 1) m

theorem maxRun_snoc_le (s : List Char) (ch : Char) :
    maxRun (s ++ [ch]) ≤ maxRun s + 1 :=
  maxRunAux_snoc_le s ch 0 0

theorem wrapLoop_nil (acc : List (List Char)) (line : List Char) :
    wrapLoop [] acc line = if line ≠ [] then acc ++ [line] else acc := rfl

theorem wrapLoop_cons (w : List Char) (ws acc : List (List Char)) (line : List Char) :
    wrapLoop (w :: ws) acc line =
      if line.length + w.length + 1 < 90 then
        wrapLoop ws acc (line ++ (if line = [] then [] else [' ']) ++ w)
      else wrapLoop ws (acc ++ [line]) w := rfl

theorem chunkLoop_nil (acc : List (List (List Char))) (cur : List (List Char)) :
    chunkLoop [] acc cur = if cur ≠ [] then acc ++ [cur] else acc := rfl

theorem chunkLoop_cons (w : List Char) (ws : List (List Char))
    (acc : List (List (List Char))) (cur : List (List Char)) :
    chunkLoop (w :: ws) acc cur =
      if (spaceJoinCh cur).length + w.length + 1 < 90 then
        chunkLoop ws acc (cur ++ [w])
      else chunkLoop ws (acc ++ [cur]) [w] := rfl

theorem spaceJoinCh_snoc (cur : List (List Char)) (w : List Char) :
    spaceJoinCh (cur ++ [w])
      = spaceJoinCh cur ++ (if cur = [] then [] else [' ']) ++ w := by
  induction cur with
  | nil => simp [spaceJoinCh]
  | cons c cs ih =>
    cases cs with
    | nil => simp [spaceJoinCh]
    | cons c2 cs2 =>
      show spaceJoinCh (c :: ((c2 :: cs2) ++ [w])) = _
      have hstep : spaceJoinCh (c :: ((c2 :: cs2) ++ [w]))
          = c ++ ' ' :: spaceJoinCh ((c2 :: cs2) ++ [w]) := rfl
      rw [hstep, ih]
      simp [spaceJoinCh, List.append_assoc]

theorem spaceJoinCh_eq_nil_iff (L : List (List Char)) (h : ∀ x ∈ L, x ≠ []) :
    spaceJoinCh L = [] ↔ L = [] := by
  cases L with
  | nil => simp [spaceJoinCh]
  | cons w ws =>
    cases ws with
    | nil =>
      simp only [spaceJoinCh]
      have := h w (List.mem_cons_self w [])
      simp [this]
    | cons w2 ws2 =>
      show w ++ ' ' :: spaceJoinCh (w2 :: ws2) = [] ↔ _
      simp

theorem chunkLoop_flatten (ws : List (List Char)) :
    ∀ (acc : List (List (List Char))) (cur : List (List Char)),
    (chunkLoop ws acc cur).flatten = acc.flatten ++ cur ++ ws := by
  induction ws with
  | nil =>
    intro acc cur
    rw [chunkLoop_nil]
    split
    · simp
    · next hcur =>
      simp only [ne_eq, not_not] at hcur
      subst hcur
      simp
  | cons w ws ih =>
    intro acc cur
    rw [chunkLoop_cons]
    split
    · rw [ih]
      simp
    · rw [ih]
      simp

theorem wrapLoop_eq_chunkLoop (ws : List (List Char)) :
    ∀ (acc : List (List (List Char))) (cur : List (List Char)),
    (∀ x ∈ ws, x ≠ []) → (∀ x ∈ cur, x ≠ []) →
    wrapLoop ws (acc.map spaceJoinCh) (spaceJoinCh cur)
      = (chunkLoop ws acc cur).map spaceJoinCh := by
  induction ws with
  | nil =>
    intro acc cur _ hcur
    rw [wrapLoop_nil, chunkLoop_nil]
    by_cases hc : cur = []
    · subst hc
      simp [spaceJoinCh]
    · rw [if_pos, if_pos hc]
      · simp
      · simpa using fun h => hc ((spaceJoinCh_eq_nil_iff cur hcur).mp h)
  | cons w ws ih =>
    intro acc cur hws hcur
    rw [wrapLoop_cons, chunkLoop_cons]
    have hw : w ≠ [] := hws w (List.mem_cons_self w ws)
    have hws' : ∀ x ∈ ws, x ≠ [] := fun x hx => hws x (List.mem_cons_of_mem w hx)
    split
    · have hline : spaceJoinCh cur ++ (if spaceJoinCh cur = [] then [] else [' ']) ++ w
          = spaceJoinCh (cur ++ [w]) := by
        rw [spaceJoinCh_snoc]
        by_cases hc : cur = []
        · subst hc; simp [spaceJoinCh]
        · rw [if_neg hc, if_neg]
          simpa using fun h => hc ((spaceJoinCh_eq_nil_iff cur hcur).mp h)
      rw [hline]
      refine ih acc (cur ++ [w]) hws' ?_
      intro x hx
      rcases List.mem_append.mp hx with hx | hx
      · exact hcur x hx
      · simp only [List.mem_singleton] at hx
        subst hx
        exact hw
    · have hacc : (acc.map spaceJoinCh) ++ [spaceJoinCh cur]
          = (acc ++ [cur]).map spaceJoinCh := by simp
      have hwj : (w : List Char) = spaceJoinCh [w] := rfl
      rw [hacc]
      rw [show wrapLoop ws ((acc ++ [cur]).map spaceJoinCh) w
            = wrapLoop ws ((acc ++ [cur]).map spaceJoinCh) (spaceJoinCh [w]) from rfl]
      refine ih (acc ++ [cur]) [w] hws' ?_
      intro x hx
      simp only [List.mem_singleton] at hx
      subst hx
      exact hw

theorem wrapLoop_length_le (ws : List (List Char)) :
    ∀ (acc : List (List Char)) (line : List Char),
    (∀ w ∈ ws, w.length ≤ 89) → (∀ l ∈ acc, l.length ≤ 89) → line.length ≤ 89 →
    ∀ l ∈ wrapLoop ws acc line, l.length ≤ 89 := by
  induction ws with
  | nil =>
    intro acc line _ hacc hline l hl
    rw [wrapLoop_nil] at hl
    split at hl
    · rcases List.mem_append.mp hl with hl | hl
      · exact hacc l hl
      · simp only [List.mem_singleton] at hl
        subst hl
        exact hline
    · exact hacc l hl
  | cons w ws ih =>
    intro acc line hws hacc hline l hl
    rw [wrapLoop_cons] at hl
    have hw : w.length ≤ 89 := hws w (List.mem_cons_self w ws)
    have hws' : ∀ x ∈ ws, x.length ≤ 89 := fun x hx => hws x (List.mem_cons_of_mem w hx)
    split at hl
    · next hcond =>
      refine ih acc _ hws' hacc ?_ l hl
      by_cases hline0 : line = []
      · subst hline0
        have hlen : (([] : List Char) ++ (if ([] : List Char) = [] then [] else [' ']) ++ w).length
            = w.length := by simp
        rw [hlen]
        simp only [List.length_nil] at hcond
        omega
      · rw [if_neg hline0]
        simp only [List.length_append, List.length_cons, List.length_nil]
        omega
    · refine ih (acc ++ [line]) w hws' ?_ hw l hl
      intro x hx
      rcases List.mem_append.mp hx with hx | hx
      · exact hacc x hx
      · simp only [List.mem_singleton] at hx
        subst hx
        exact hline

theorem spaceJoin_data (L : List String) :
    (spaceJoin L).data = spaceJoinCh (L.map String.data) := by
  induction L with
  | nil => rfl
  | cons l ls ih =>
    cases ls with
    | nil => rfl
    | cons l2 ls2 =>
      show (l ++ " " ++ spaceJoin (l2 :: ls2)).data = _
      rw [data_append, data_append, ih]
      show (l.data ++ [' ']) ++ spaceJoinCh ((l2 :: ls2).map String.data)
          = l.data ++ ' ' :: spaceJoinCh ((l2 :: ls2).map String.data)
      simp

theorem maxRun_commaJoin_le (L : List String) (n : Nat)
    (h : ∀ l ∈ L, maxRun l.data ≤ n) : maxRun (commaJoin L).data ≤ n + 1 := by
  induction L with
  | nil => exact Nat.zero_le _
  | cons l ls ih =>
    cases ls with
    | nil =>
      have := h l (List.mem_cons_self l [])
      calc maxRun (commaJoin [l]).data = maxRun l.data := rfl
        _ ≤ n := this
        _ ≤ n + 1 := Nat.le_succ n
    | cons l2 ls2 =>
      have hdata : (commaJoin (l :: l2 :: ls2)).data
          = (l.data ++ [',']) ++ ' ' :: (commaJoin (l2 :: ls2)).data := by
        show (l ++ ", " ++ commaJoin (l2 :: ls2)).data = _
        rw [data_append, data_append]
        show (l.data ++ [',', ' ']) ++ (commaJoin (l2 :: ls2)).data = _
        simp
      rw [hdata, maxRun_append_space]
      have h1 : maxRun (l.data ++ [',']) ≤ n + 1 :=
        le_trans (maxRun_snoc_le l.data ',')
          (by have := h l (List.mem_cons_self l (l2 :: ls2)); omega)
      have h2 : maxRun (commaJoin (l2 :: ls2)).data ≤ n + 1 :=
        ih (fun x hx => h x (List.mem_cons_of_mem l hx))
      omega

theorem maxRun_spaceJoinCh_le (Ls : List (List Char)) (n : Nat)
    (h : ∀ l ∈ Ls, maxRun l ≤ n) : maxRun (spaceJoinCh Ls) ≤ n := by
  induction Ls with
  | nil => exact Nat.zero_le _
  | cons l ls ih =>
    cases ls with
    | nil => exact h l (List.mem_cons_self l [])
    | cons l2 ls2 =>
      show maxRun (l ++ ' ' :: spaceJoinCh (l2 :: ls2)) ≤ n
      rw [maxRun_append_space]
      have h1 := h l (List.mem_cons_self l (l2 :: ls2))
      have h2 := ih (fun x hx => h x (List.mem_cons_of_mem l hx))
      omega

theorem repr_data_length_one (n : Nat) (h : n < 10) : (Nat.repr n).data.length = 1 := by
  interval_cases n <;> rfl

theorem formatAvg_data_length (sum : Nat) (h : sum ≤ 40) :
    (formatAvg sum).data.length = 3 := by
  unfold formatAvg
  rw [data_append, data_append]
  simp only [List.length_append]
  have hdot : (("." : String)).data.length = 1 := rfl
  split_ifs with h1 h2 h3 <;>
    rw [repr_data_length_one _ (by omega), repr_data_length_one _ (by omega), hdot]

theorem sumScores_le (scores : Answers) (h : ∀ k, (scores k).score ≤ 5) :
    sumScores scores ≤ 40 := by
  have h1 := h QKey.vision
  have h2 := h QKey.market
  have h3 := h QKey.product
  have h4 := h QKey.sales
  have h5 := h QKey.ops
  have h6 := h QKey.finance
  have h7 := h QKey.team
  have h8 := h QKey.brand
  simp only [sumScores, scoreList, QUESTIONS, List.map_cons, List.map_nil, List.sum_cons,
    List.sum_nil]
  omega

theorem label_maxRun_le : ∀ l ∈ QUESTIONS.map Prod.snd, maxRun l.data ≤ 15 := by
  decide

theorem low_areas_subset (scores : Answers) :
    ∀ l ∈ low_areas scores, l ∈ QUESTIONS.map Prod.snd := by
  intro l hl
  exact List.map_subset _ (List.filter_subset' _) hl

theorem high_areas_subset (scores : Answers) :
    ∀ l ∈ high_areas scores, l ∈ QUESTIONS.map Prod.snd := by
  intro l hl
  exact List.map_subset _ (List.filter_subset' _) hl

theorem mem_ite_singleton {c : Prop} [Decidable c] {x l : String}
    (h : l ∈ (if c then [x] else ([] : List String))) : l = x := by
  split at h
  · simpa using h
  · simp at h

theorem avgLine_maxRun_le (scores : Answers) (h : ∀ k, (scores k).score ≤ 5) :
    maxRun ("Your overall readiness score is " ++ formatAvg (sumScores scores) ++ "/5.").data
      ≤ 89 := by
  have hdata : ("Your overall readiness score is " ++ formatAvg (sumScores scores) ++ "/5.").data
      = ("Your overall readiness score is").data
        ++ ' ' :: ((formatAvg (sumScores scores)).data ++ ("/5.").data) := by
    rw [data_append, data_append]
    show (("Your overall readiness score is").data ++ [' ']
        ++ (formatAvg (sumScores scores)).data) ++ ("/5.").data = _
    simp
  rw [hdata, maxRun_append_space]
  have h1 : maxRun ("Your overall readiness score is").data ≤ 89 := by decide
  have h2 : maxRun ((formatAvg (sumScores scores)).data ++ ("/5.").data) ≤ 89 := by
    refine le_trans (maxRun_le_length _) ?_
    rw [List.length_append, formatAvg_data_length _ (sumScores_le scores h)]
    decide
  omega

theorem strengthsLine_maxRun_le (areas : List String)
    (hareas : ∀ l ∈ areas, maxRun l.data ≤ 15) :
    maxRun ("Strengths: " ++ commaJoin areas ++ ".").data ≤ 89 := by
  have hdata : ("Strengths: " ++ commaJoin areas ++ ".").data
      = ("Strengths:").data ++ ' ' :: ((commaJoin areas).data ++ ['.']) := by
    rw [data_append, data_append]
    show (("Strengths:").data ++ [' '] ++ (commaJoin areas).data) ++ ['.'] = _
    simp
  rw [hdata, maxRun_append_space]
  have h1 : maxRun ("Strengths:").data ≤ 89 := by decide
  have h2 := maxRun_snoc_le (commaJoin areas).data '.'
  have h3 := maxRun_commaJoin_le areas 15 hareas
  omega

theorem focusLine_maxRun_le (areas : List String)
    (hareas : ∀ l ∈ areas, maxRun l.data ≤ 15) :
    maxRun ("Focus areas: " ++ commaJoin areas ++ ".").data ≤ 89 := by
  have hdata : ("Focus areas: " ++ commaJoin areas ++ ".").data
      = ("Focus areas:").data ++ ' ' :: ((commaJoin areas).data ++ ['.']) := by
    rw [data_append, data_append]
    show (("Focus areas:").data ++ [' '] ++ (commaJoin areas).data) ++ ['.'] = _
    simp
  rw [hdata, maxRun_append_space]
  have h1 : maxRun ("Focus areas:").data ≤ 89 := by decide
  have h2 := maxRun_snoc_le (commaJoin areas).data '.'
  have h3 := maxRun_commaJoin_le areas 15 hareas
  omega

theorem interpretLines_maxRun_le (scores : Answers) (h : ∀ k, (scores k).score ≤ 5) :
    ∀ l ∈ interpretLines scores, maxRun l.data ≤ 89 := by
  intro l hl
  have hlow : ∀ x ∈ low_areas scores, maxRun x.data ≤ 15 :=
    fun x hx => label_maxRun_le x (low_areas_subset scores x hx)
  have hhigh : ∀ x ∈ high_areas scores, maxRun x.data ≤ 15 :=
    fun x hx => label_maxRun_le x (high_areas_subset scores x hx)
  simp only [interpretLines, List.mem_append, List.mem_singleton] at hl
  rcases hl with (((((((hl | hl) | hl) | hl) | hl) | hl) | hl) | hl)
  · rw [hl]
    exact avgLine_maxRun_le scores h
  · rw [mem_ite_singleton hl]
    exact strengthsLine_maxRun_le (high_areas scores) hhigh
  · rw [mem_ite_singleton hl]
    exact focusLine_maxRun_le (low_areas scores) hlow
  · rw [hl]
    decide
  · rw [mem_ite_singleton hl]
    decide
  · rw [mem_ite_singleton hl]
    decide
  · rw [mem_ite_singleton hl]
    decide
  · rw [mem_ite_singleton hl]
    decide

theorem maxRun_interpret_le (scores : Answers) (h : ∀ k, (scores k).score ≤ 5) :
    maxRun (interpret scores).data ≤ 89 := by
  unfold interpret
  rw [spaceJoin_data]
  refine maxRun_spaceJoinCh_le _ 89 ?_
  intro ld hld
  rcases List.mem_map.mp hld with ⟨l, hl, rfl⟩
  exact interpretLines_maxRun_le scores h l hl

theorem interpret_words_le (scores : Answers) (h : ∀ k, (scores k).score ≤ 5) :
    ∀ w ∈ pyWords (interpret scores).data, w.length ≤ 89 := by
  intro w hw
  have h1 := length_le_maxRunAux (interpret scores).data [] 0 w hw
  have h2 := maxRun_interpret_le scores h
  unfold maxRun at h2
  simpa using le_trans (by simpa using h1) h2

/-! ## Claims -/

set_option maxRecDepth 200000 in
/-- C1: for the scenario scores (vision 5, market 5, product 1, sales 1,
ops 3, finance 3, team 4, brand 2), `interpret` reports a mean of 3.0, the
strengths list is exactly the vision/market/team labels, the focus list is
exactly the product/sales/brand labels, and the summary contains the
sales-pipeline and brand/website recommendation sentences but not the
financial-tracking one. -/
theorem c1_scenario_summary :
    strContains (interpret scenarioScores) "Your overall readiness score is 3.0/5." = true
    ∧ formatAvg (sumScores scenarioScores) = "3.0"
    ∧ high_areas scenarioScores =
        ["Clarity of vision & goals", "Market understanding & positioning", "Team & hiring"]
    ∧ low_areas scenarioScores =
        ["Product/Service readiness", "Sales & lead generation", "Brand & online presence"]
    ∧ strContains (interpret scenarioScores)
        "- Implement a lead pipeline with clear weekly targets and tracking." = true
    ∧ strContains (interpret scenarioScores)
        "- Refresh website messaging and create a content calendar." = true
    ∧ strContains (interpret scenarioScores)
        "- Set up monthly P&L tracking and review unit economics." = false := by
  decide

set_option maxRecDepth 200000 in
/-- C8: if every score is 3, the summary has no Strengths clause, no Focus
areas clause, ends with the generic congratulatory recommendation, and
contains none of the per-label recommendations. -/
theorem c8_all_threes (a : Answers) (h : ∀ k, (a k).score = 3) :
    strContains (interpret a) "Strengths" = false
    ∧ strContains (interpret a) "Focus areas" = false
    ∧ strEndsWith (interpret a)
        "- You’re in great shape. Consider accelerating growth initiatives." = true
    ∧ strContains (interpret a)
        "- Implement a lead pipeline with clear weekly targets and tracking." = false
    ∧ strContains (interpret a)
        "- Set up monthly P&L tracking and review unit economics." = false
    ∧ strContains (interpret a)
        "- Refresh website messaging and create a content calendar." = false := by
  have ha : interpret a = interpret allThrees :=
    interpret_congr a allThrees (fun k => h k)
  rw [ha]
  decide

/-- C8 witness: the all-threes mapping satisfies the hypothesis and the
conclusion. -/
theorem c8_all_threes_witness :
    strContains (interpret allThrees) "Strengths" = false
    ∧ strContains (interpret allThrees) "Focus areas" = false
    ∧ strEndsWith (interpret allThrees)
        "- You’re in great shape. Consider accelerating growth initiatives." = true
    ∧ strContains (interpret allThrees)
        "- Implement a lead pipeline with clear weekly targets and tracking." = false
    ∧ strContains (interpret allThrees)
        "- Set up monthly P&L tracking and review unit economics." = false
    ∧ strContains (interpret allThrees)
        "- Refresh website messaging and create a content calendar." = false :=
  c8_all_threes allThrees (fun _ => rfl)

/-- C10: the summary depends only on the scores, never on the notes: equal
scores with arbitrary notes give the identical summary string. -/
theorem c10_notes_independence (a b : Answers) (h : ∀ k, (a k).score = (b k).score) :
    interpret a = interpret b :=
  interpret_congr a b h

/-- C10 witness: two mappings equal in scores and different in notes. -/
theorem c10_notes_independence_witness :
    interpret (fun _ => ⟨3, "alpha"⟩) = interpret (fun _ => ⟨3, "beta"⟩) :=
  c10_notes_independence _ _ (fun _ => rfl)

/-- C2: an identity submission in the `auth` stage advances to `survey`
exactly when email, name and password are all non-empty; otherwise the
session record is unchanged (stays in `auth`, identity fields untouched)
and the validation error is surfaced. -/
theorem c2_auth_transition (s : SessionState) (email name phone password : String)
    (now : Nat) (nowIso : String) (hstage : s.stage = "auth") :
    (∀ out msg,
        ui_auth_submit okWrite now nowIso s email name phone password = Except.ok (out, msg) →
        (out.stage = "survey" ↔ (email ≠ "" ∧ name ≠ "" ∧ password ≠ "")))
    ∧ ((email ≠ "" ∧ name ≠ "" ∧ password ≠ "") →
        ui_auth_submit okWrite now nowIso s email name phone password =
          Except.ok ({ s with user_email := email, user_name := name,
                              user_phone := phone, lead_id := "lead_" ++ Nat.repr now,
                              stage := "survey" }, none))
    ∧ ((email = "" ∨ name = "" ∨ password = "") →
        ui_auth_submit okWrite now nowIso s email name phone password =
          Except.ok (s, some "Please fill email, name, and password.")) := by
  by_cases hc : email = "" ∨ name = "" ∨ password = ""
  · refine ⟨?_, ?_, ?_⟩
    · intro out msg hout
      rw [ui_auth_submit, if_pos hc] at hout
      cases hout
      constructor
      · intro hsv
        exact absurd (hstage.symm.trans hsv) (by decide)
      · intro hne
        rcases hc with hc | hc | hc
        · exact absurd hc hne.1
        · exact absurd hc hne.2.1
        · exact absurd hc hne.2.2
    · intro hne
      rcases hc with hc | hc | hc
      · exact absurd hc hne.1
      · exact absurd hc hne.2.1
      · exact absurd hc hne.2.2
    · intro _
      rw [ui_auth_submit, if_pos hc]
  · refine ⟨?_, ?_, ?_⟩
    · intro out msg hout
      rw [ui_auth_submit, if_neg hc] at hout
      cases hout
      push_neg at hc
      simpa using hc
    · intro _
      rw [ui_auth_submit, if_neg hc]
      rfl
    · intro h
      exact absurd h hc

/-- C2 witness: a valid submission advances; an empty-email submission is
rejected with the validation message and an unchanged record. -/
theorem c2_auth_transition_witness :
    ui_auth_submit okWrite 0 "t" demoAuthState "a@b.co" "Ann" "" "pw" =
      Except.ok ({ demoAuthState with user_email := "a@b.co", user_name := "Ann",
                                      user_phone := "", lead_id := "lead_" ++ Nat.repr 0,
                                      stage := "survey" }, none)
    ∧ ui_auth_submit okWrite 0 "t" demoAuthState "" "Ann" "" "pw" =
      Except.ok (demoAuthState, some "Please fill email, name, and password.") :=
  ⟨(c2_auth_transition demoAuthState "a@b.co" "Ann" "" "pw" 0 "t" rfl).2.1
     ⟨by decide, by decide, by decide⟩,
   (c2_auth_transition demoAuthState "" "Ann" "" "pw" 0 "t" rfl).2.2 (Or.inl rfl)⟩

/-- C4 counterexample: a failing lead-store write is NOT caught — the
identity-creation action does not complete with an `ok` outcome for every
failing store, refuting the claim as stated. -/
theorem c4_counterexample :
    ¬ (∀ (e : String) (s : SessionState) (email name phone password : String)
          (now : Nat) (nowIso : String),
        ∃ out, ui_auth_submit (fun _ => Except.error e) now nowIso s email name phone password
                 = Except.ok out) := by
  intro hcl
  obtain ⟨out, hout⟩ := hcl "disk full" demoAuthState "a@b.co" "Ann" "" "pw" 0 "t"
  rw [ui_auth_submit, if_neg (by decide)] at hout
  exact Except.noConfusion hout

/-- C4 amended: `upsert_lead` installs no exception handler, so a failing
store write propagates out of all three wizard write sites (identity
creation — when validation passes and the write is reached — survey
completion, and finish), interrupting the action. -/
theorem c4_store_failure_propagates (e : String) (s : SessionState)
    (email name phone password : String) (now : Nat) (nowIso : String)
    (responses : Answers) (sent : Bool) :
    (email ≠ "" → name ≠ "" → password ≠ "" →
      ui_auth_submit (fun _ => Except.error e) now nowIso s email name phone password
        = Except.error e)
    ∧ ui_survey_submit (fun _ => Except.error e) nowIso s responses = Except.error e
    ∧ ui_finish (fun _ => Except.error e) nowIso s sent = Except.error e := by
  refine ⟨fun h1 h2 h3 => ?_, rfl, rfl⟩
  rw [ui_auth_submit, if_neg (by simp [h1, h2, h3])]
  rfl

/-- C4 witness: the three write sites at concrete inputs with a failing
store. -/
theorem c4_store_failure_witness :
    ui_auth_submit (fun _ => Except.error "disk full") 0 "t" demoAuthState "a@b.co" "Ann" "" "pw"
      = Except.error "disk full"
    ∧ ui_survey_submit (fun _ => Except.error "disk full") "t" demoAuthState allThrees
      = Except.error "disk full"
    ∧ ui_finish (fun _ => Except.error "disk full") "t" demoAuthState false
      = Except.error "disk full" := by
  have h := c4_store_failure_propagates "disk full" demoAuthState "a@b.co" "Ann" "" "pw"
    0 "t" allThrees false
  exact ⟨h.1 (by decide) (by decide) (by decide), h.2.1, h.2.2⟩

/-- C9: `email_report` always returns a structured (success, message) pair:
missing configuration yields `(false, reason)` without touching the
transport, and a transport failure is caught and reported as
`(false, reason)` instead of propagating. -/
theorem c9_email_structured (host user pass : String) (tr : Except String Unit)
    (toAddr : String) :
    (∃ ok msg, email_report host user pass tr toAddr = (ok, msg))
    ∧ ((host = "" ∨ user = "" ∨ pass = "") →
        email_report host user pass tr toAddr = (false, "Email not configured in demo."))
    ∧ (∀ e, tr = Except.error e → host ≠ "" → user ≠ "" → pass ≠ "" →
        email_report host user pass tr toAddr = (false, "Email failed: " ++ e)) := by
  refine ⟨⟨(email_report host user pass tr toAddr).1,
           (email_report host user pass tr toAddr).2, rfl⟩, ?_, ?_⟩
  · intro hc
    rw [email_report.eq_def, if_pos hc]
  · intro e htr h1 h2 h3
    subst htr
    rw [email_report.eq_def, if_neg (by simp [h1, h2, h3])]

/-- C9 witness: missing configuration and a failing transport at concrete
inputs. -/
theorem c9_email_structured_witness :
    email_report "" "u" "p" (Except.ok ()) "x@y.zz" = (false, "Email not configured in demo.")
    ∧ email_report "h" "u" "p" (Except.error "boom") "x@y.zz"
        = (false, "Email failed: " ++ "boom") :=
  ⟨(c9_email_structured "" "u" "p" (Except.ok ()) "x@y.zz").2.1 (Or.inl rfl),
   (c9_email_structured "h" "u" "p" (Except.error "boom") "x@y.zz").2.2 "boom" rfl
     (by decide) (by decide) (by decide)⟩

/-- C6: for every interpretation string produced by `interpret` from a
completed answer mapping (scores in 1..5), the renderer's word wrap yields
lines of at most 89 characters, and it breaks the text only at word
boundaries: the wrapped lines are exactly the space-joinings of a chunk
decomposition whose chunks concatenate back to the original word list. -/
theorem c6_word_wrap (scores : Answers)
    (h : ∀ k, 1 ≤ (scores k).score ∧ (scores k).score ≤ 5) :
    (∀ l ∈ pyWrap (interpret scores).data, l.length ≤ 89)
    ∧ pyWrap (interpret scores).data
        = (wrapChunks (pyWords (interpret scores).data)).map spaceJoinCh
    ∧ (wrapChunks (pyWords (interpret scores).data)).flatten
        = pyWords (interpret scores).data := by
  have h5 : ∀ k, (scores k).score ≤ 5 := fun k => (h k).2
  refine ⟨?_, ?_, ?_⟩
  · intro l hl
    exact wrapLoop_length_le (pyWords (interpret scores).data) [] []
      (interpret_words_le scores h5) (by intro x hx; simp at hx) (by simp) l hl
  · have hc := wrapLoop_eq_chunkLoop (pyWords (interpret scores).data) [] []
      (fun x hx => pyWordsAux_ne_nil _ [] x hx) (by intro x hx; simp at hx)
    simpa [pyWrap, wrapChunks, spaceJoinCh] using hc
  · have hf := chunkLoop_flatten (pyWords (interpret scores).data) [] []
    simpa [wrapChunks] using hf

/-- C6 witness: the wrap of the all-threes summary. -/
theorem c6_word_wrap_witness :
    (∀ l ∈ pyWrap (interpret allThrees).data, l.length ≤ 89)
    ∧ pyWrap (interpret allThrees).data
        = (wrapChunks (pyWords (interpret allThrees).data)).map spaceJoinCh
    ∧ (wrapChunks (pyWords (interpret allThrees).data)).flatten
        = pyWords (interpret allThrees).data :=
  c6_word_wrap allThrees (fun _ => ⟨(by norm_num : (1 : Nat) ≤ 3), (by norm_num : (3 : Nat) ≤ 5)⟩)

/-- C5: the report renderer is pure in its inputs — under the same injected
clock value, two renderings of the same name, email, answers and
interpretation produce the identical operation trace (hence byte-identical
PDF output). -/
theorem c5_render_deterministic (user_name email : String) (scores : Answers)
    (insights : String) (now now' : String) (h : now = now') :
    make_report_pdf user_name email scores insights now
      = make_report_pdf user_name email scores insights now' := by
  rw [h]

/-- C3 counterexample: the claim fails on the code — in the scenario
mapping, brand scores exactly 2 and its label DOES appear in the focus
(low) set, and team scores exactly 4 and its label DOES appear in the
strengths (high) set. -/
theorem c3_counterexample :
    ¬ (∀ (scores : Answers), (∀ k, 1 ≤ (scores k).score ∧ (scores k).score ≤ 5) →
        ∀ k, ((scores k).score = 2 ∨ (scores k).score = 4) →
        qLabel k ∉ low_areas scores ∧ qLabel k ∉ high_areas scores) := by
  intro hcl
  have hb := hcl scenarioScores (by decide) QKey.brand (Or.inl rfl)
  exact hb.1 (by decide)

/-- C3 amended: `interpret` includes a score of exactly 2 in the low
(focus) set and a score of exactly 4 in the high (strengths) set; only the
neutral score 3 is excluded from both sets (the code partitions with
`score <= 2` and `score >= 4`, matching §4.2 step 2 of the spec and
contradicting the §4.2 edge-case sentence). -/
theorem c3_boundary_scores (scores : Answers) (k : QKey) :
    ((scores k).score = 2 →
      qLabel k ∈ low_areas scores ∧ qLabel k ∉ high_areas scores)
    ∧ ((scores k).score = 4 →
      qLabel k ∈ high_areas scores ∧ qLabel k ∉ low_areas scores)
    ∧ ((scores k).score = 3 →
      qLabel k ∉ low_areas scores ∧ qLabel k ∉ high_areas scores) := by
  refine ⟨fun h2 => ⟨?_, ?_⟩, fun h4 => ⟨?_, ?_⟩, fun h3 => ⟨?_, ?_⟩⟩
  · exact (qLabel_mem_low scores k).mpr (by omega)
  · rw [qLabel_mem_high]; omega
  · exact (qLabel_mem_high scores k).mpr (by omega)
  · rw [qLabel_mem_low]; omega
  · rw [qLabel_mem_low]; omega
  · rw [qLabel_mem_high]; omega

/-- C3 amended witness: in the scenario mapping, brand (score 2) is in the
low set and not the high set, team (score 4) is in the high set and not
the low set, and ops (score 3) is in neither. -/
theorem c3_boundary_scores_witness :
    (qLabel QKey.brand ∈ low_areas scenarioScores
      ∧ qLabel QKey.brand ∉ high_areas scenarioScores)
    ∧ (qLabel QKey.team ∈ high_areas scenarioScores
      ∧ qLabel QKey.team ∉ low_areas scenarioScores)
    ∧ (qLabel QKey.ops ∉ low_areas scenarioScores
      ∧ qLabel QKey.ops ∉ high_areas scenarioScores) :=
  ⟨(c3_boundary_scores scenarioScores QKey.brand).1 rfl,
   (c3_boundary_scores scenarioScores QKey.team).2.1 rfl,
   (c3_boundary_scores scenarioScores QKey.ops).2.2 rfl⟩

/-- C7: for every answer mapping and every chart index `i` of 8, the trace
contains the spoke from the fixed center `(300, 400)` along angle
`2π·(i/8) − π/2` (the −90° offset, evenly dividing the circle in catalog
order) out to radius 150; the closed polygon's edge from vertex `i` to
vertex `(i+1) mod 8` is drawn (so the last vertex connects back to the
first); and vertex `i` lies on spoke `i` — its offset from the center is
the fraction `score/5` of the spoke-tip offset — at Euclidean distance
`(score/5) · R` from the center. -/
theorem c7_radar_chart (user_name email : String) (scores : Answers)
    (insights nowStr : String) (i : Fin 8) :
    PdfOp.line chartCx chartCy (spokeX i) (spokeY i)
        ∈ make_report_pdf user_name email scores insights nowStr
    ∧ chartAngle i = 2 * Real.pi * (((i : ℕ) : ℝ) / 8) - Real.pi / 2
    ∧ spokeX i = chartCx + chartR * Real.cos (chartAngle i)
    ∧ spokeY i = chartCy + chartR * Real.sin (chartAngle i)
    ∧ PdfOp.line (ptX scores i) (ptY scores i) (ptX scores (i + 1)) (ptY scores (i + 1))
        ∈ make_report_pdf user_name email scores insights nowStr
    ∧ ptX scores i - chartCx
        = (((scores (qAt i).1).score : ℝ) / 5) * (spokeX i - chartCx)
    ∧ ptY scores i - chartCy
        = (((scores (qAt i).1).score : ℝ) / 5) * (spokeY i - chartCy)
    ∧ Real.sqrt ((ptX scores i - chartCx) ^ 2 + (ptY scores i - chartCy) ^ 2)
        = (((scores (qAt i).1).score : ℝ) / 5) * chartR := by
  refine ⟨?_, rfl, rfl, rfl, ?_, ?_, ?_, pt_dist scores i⟩
  · exact mem_make_report_of_mem_chartOps user_name email scores insights nowStr _
      (by unfold chartOps; simp [spoke_line_mem i])
  · exact mem_make_report_of_mem_chartOps user_name email scores insights nowStr _
      (by unfold chartOps; simp [poly_line_mem scores i])
  · unfold ptX ptRad spokeX; ring
  · unfold ptY ptRad spokeY; ring

/-- C5 witness: a concrete double rendering under a fixed clock. -/
theorem c5_render_deterministic_witness :
    make_report_pdf "Ann" "a@b.co" allThrees "some interpretation" "2025-01-01 00:00 UTC"
      = make_report_pdf "Ann" "a@b.co" allThrees "some interpretation" "2025-01-01 00:00 UTC" :=
  c5_render_deterministic "Ann" "a@b.co" allThrees "some interpretation"
    "2025-01-01 00:00 UTC" "2025-01-01 00:00 UTC" rfl

end AICoach
